import Mathlib

/-!
Shallow embedding of the cross-scenario resource lock of `godogx/httpsteps`
(`sync.go`, type `synchronized`), together with theorems settling the
specification's claims about it.

Modelling conventions:
* A Go `chan struct{}` allocated by the before-scenario hook is modelled by a
  `Nat` identifier; distinct scenarios get distinct identifiers.  The scenario
  identity carried by `context.Context` is therefore an `Option Nat`
  (`none` = the context never went through the before-scenario hook).
* The registry `s.locks : map[string]chan struct{}` is an association list
  `List (String × Nat)` with unique keys (an invariant we prove is preserved).
* Closing a channel is recorded by inserting its identifier into a `closed`
  list; `<-lock` (receiving from a channel that is only ever closed) is enabled
  exactly when the channel identifier is in `closed`.
* The release callback `onRelease func(lockName string) error` is modelled by
  `Option (String → Option String)` — `none` for a nil function value, and the
  callback returns `none` for a nil error or `some msg` for an error whose
  `Error()` text is `msg`.
-/

namespace Httpsteps

/-- Go `error` values produced by `sync.go`: the distinguished
`errMissingScenarioLock` value, or the error built at the end of the After hook
by `errors.New(strings.Join(errs, ", "))`. -/
inductive GoError where
  | missingScenarioLock : GoError
  | joined (msg : String) : GoError
deriving DecidableEq, Repr

/-- Modelled from the spec: the declaration of `errMissingScenarioLock` is not
among the sources at hand (only its uses in `sync.go` are).  The spec calls it
the `MissingScenarioIdentity` error, a fixed distinguished error value; only its
identity matters to the lock code, never its message text. -/
def errMissingScenarioLock : GoError := GoError.missingScenarioLock

/-- Mutable state of the `synchronized` struct: the registry map `locks`
(resource name ↦ holder's channel) plus the set of channels that have been
closed so far (bookkeeping for the blocking-wait semantics). -/
structure SyncState where
  locks : List (String × Nat)
  closed : List Nat
deriving DecidableEq, Repr

/-- Go map read `s.locks[lockName]`: `none` models the nil channel returned for
an absent key. -/
def lookupLock : List (String × Nat) → String → Option Nat
  | [], _ => none
  | (k, v) :: rest, name => if k = name then some v else lookupLock rest name

/-- Outcome of one pass through the body of `acquireLock` (its critical section
plus the decision made right after): `acquired` returns `(true, nil)`,
`reentrant` returns `(false, nil)`, `missingIdentity` returns
`(false, errMissingScenarioLock)`, and `blocked l` does not return — the caller
suspends on channel `l` (`<-lock`) and then retries from scratch. -/
inductive AcquireOutcome where
  | acquired : AcquireOutcome
  | reentrant : AcquireOutcome
  | blocked (lock : Nat) : AcquireOutcome
  | missingIdentity : AcquireOutcome
deriving DecidableEq, Repr

/-- The `(bool, error)` pair `acquireLock` returns for an outcome, `none` when
the outcome is to keep waiting (no return yet). -/
def AcquireOutcome.ret : AcquireOutcome → Option (Bool × Option GoError)
  | .acquired => some (true, none)
  | .reentrant => some (false, none)
  | .blocked _ => none
  | .missingIdentity => some (false, some errMissingScenarioLock)

/-- One pass of `synchronized.acquireLock` (sync.go lines 33–64): read the
scenario's channel from the context; under the mutex, read `s.locks[lockName]`
and install `currentLock` when the key is absent; then either return
(`acquired`/`reentrant`/`missingIdentity`) or block on the alien holder's
channel. -/
def acquireLock (st : SyncState) (ctxLock : Option Nat) (lockName : String) :
    AcquireOutcome × SyncState :=
  match ctxLock with
  | none => (.missingIdentity, st)
  | some currentLock =>
    match lookupLock st.locks lockName with
    | none => (.acquired, { st with locks := (lockName, currentLock) :: st.locks })
    | some lock =>
      if lock = currentLock then (.reentrant, st) else (.blocked lock, st)

/-- The body of the `for key, lock := range s.locks` loop of the After hook
(sync.go lines 87–97), processed entry by entry: an entry whose channel equals
`currentLock` is deleted from the registry; when `onRelease` is non-nil it is
invoked with the entry's key (note: with every key of the registry, the
invocation is not conditional on `lock == currentLock`), and a returned error's
text is appended to `errs`.  Returns the remaining registry entries, the keys
the callback was invoked with (in order), and the collected error texts (in
order). -/
def releaseLoop (currentLock : Nat) (onRelease : Option (String → Option String)) :
    List (String × Nat) → List (String × Nat) × List String × List String
  | [] => ([], [], [])
  | (key, lock) :: rest =>
    let r := releaseLoop currentLock onRelease rest
    let kept := if lock = currentLock then r.1 else (key, lock) :: r.1
    match onRelease with
    | none => (kept, r.2.1, r.2.2)
    | some f =>
      match f key with
      | none => (kept, key :: r.2.1, r.2.2)
      | some e => (kept, key :: r.2.1, e :: r.2.2)

/-- What the After hook produced: the hook's returned error, the state of the
`synchronized` struct afterwards, and the list of keys the release callback was
invoked with. -/
structure AfterResult where
  err : Option GoError
  state : SyncState
  calls : List String
deriving Repr

/-- The After hook installed by `synchronized.register` (sync.go lines 75–106):
under the mutex, read the scenario's channel from the context (failing with
`errMissingScenarioLock` when absent), run the release loop over the registry,
close the scenario's channel, and return the joined error texts when any
callback failed. -/
def afterHook (st : SyncState) (ctxLock : Option Nat)
    (onRelease : Option (String → Option String)) : AfterResult :=
  match ctxLock with
  | none => ⟨some errMissingScenarioLock, st, []⟩
  | some currentLock =>
    let r := releaseLoop currentLock onRelease st.locks
    let st' : SyncState := ⟨r.1, currentLock :: st.closed⟩
    if r.2.2 = [] then ⟨none, st', r.2.1⟩
    else ⟨some (.joined (String.intercalate ", " r.2.2)), st', r.2.1⟩

/-- Control state of a goroutine executing a call of `acquireLock`: it is about
to run the body (`start`), suspended receiving from an alien holder's channel
(`waiting`), returned (`done freshlyAcquired`), or failed with
`errMissingScenarioLock` (`failed`). -/
inductive AcqState where
  | start : AcqState
  | waiting (lock : Nat) : AcqState
  | done (freshlyAcquired : Bool) : AcqState
  | failed : AcqState
deriving DecidableEq, Repr

/-- Small-step semantics of a goroutine inside `acquireLock`: from `start` it
runs one pass of the body atomically (the mutex makes the critical section
atomic); a `blocked` outcome suspends it on the holder's channel; the receive
`<-lock` is enabled only once that channel is closed, after which the goroutine
retries from scratch (the recursive call at line 56).  `none` means no step is
enabled. -/
def acqStep (st : SyncState) (ctxLock : Option Nat) (lockName : String) :
    AcqState → Option (AcqState × SyncState)
  | .start =>
    match acquireLock st ctxLock lockName with
    | (.acquired, st') => some (.done true, st')
    | (.reentrant, st') => some (.done false, st')
    | (.blocked l, st') => some (.waiting l, st')
    | (.missingIdentity, st') => some (.failed, st')
  | .waiting l => if l ∈ st.closed then some (.start, st) else none
  | .done _ => none
  | .failed => none

/-- Events observable on the shared `synchronized` state: a scenario's
before-scenario hook runs (allocating channel `sid`), a scenario performs one
critical-section pass of `acquireLock`, or a scenario's After hook runs. -/
inductive Ev where
  | before (sid : Nat) : Ev
  | acquire (sid : Nat) (lockName : String) : Ev
  | afterSc (sid : Nat) : Ev
deriving DecidableEq, Repr

/-- Does the event belong to the scenario whose channel is `c` and touch the
registry on its behalf? -/
def Ev.isAcqOf (c : Nat) : Ev → Bool
  | .acquire sid _ => sid = c
  | _ => false

/-- Effect of one event on the shared state.  The before-scenario hook only
allocates a fresh channel and touches no shared state. -/
def applyEv (onRelease : Option (String → Option String)) (st : SyncState) :
    Ev → SyncState
  | .before _ => st
  | .acquire sid name => (acquireLock st (some sid) name).2
  | .afterSc sid => (afterHook st (some sid) onRelease).state

/-- Run a list of events from a state. -/
def runTrace (onRelease : Option (String → Option String)) (st : SyncState) :
    List Ev → SyncState
  | [] => st
  | e :: evs => runTrace onRelease (applyEv onRelease st e) evs

/-- The state reached from the initial state (`newSynchronized`: empty map,
nothing closed) by a trace of events. -/
def reach (onRelease : Option (String → Option String)) (evs : List Ev) : SyncState :=
  runTrace onRelease ⟨[], []⟩ evs

/-! Instruction-level view of the mutex discipline: the sequence of
mutex / registry-map / channel operations each function performs, in source
order, used to settle the claims about what happens under the guard. -/

/-- The synchronization-relevant operations. -/
inductive Instr where
  | muLock : Instr
  | muUnlock : Instr
  | mapRead : Instr
  | mapInsert : Instr
  | mapDelete : Instr
  | chanWait : Instr
  | chanClose : Instr
  | callback : Instr
deriving DecidableEq, Repr

/-- Operations of `acquireLock` in source order (sync.go lines 39–54):
`s.mu.Lock()`; read `s.locks[lockName]`; (conditionally) insert `currentLock`;
`s.mu.Unlock()`; (conditionally) the blocking receive `<-lock`. -/
def acquireLockInstrs : List Instr :=
  [.muLock, .mapRead, .mapInsert, .muUnlock, .chanWait]

/-- Operations of the After hook in source order (sync.go lines 76–99):
`s.mu.Lock()`; the loop (map iteration read, conditional delete, callback
invocation — body linearized once); `close(currentLock)`; the deferred
`s.mu.Unlock()` runs last. -/
def afterHookInstrs : List Instr :=
  [.muLock, .mapRead, .mapDelete, .callback, .chanClose, .muUnlock]

/-- Is the instruction an access to the shared registry map? -/
def Instr.isMapOp : Instr → Bool
  | .mapRead => true
  | .mapInsert => true
  | .mapDelete => true
  | _ => false

/-- Pair each instruction with whether the mutex is held while it executes
(`muLock`/`muUnlock` themselves are tagged with the state they establish). -/
def guardTrace : Bool → List Instr → List (Instr × Bool)
  | _, [] => []
  | _, .muLock :: rest => (.muLock, true) :: guardTrace true rest
  | _, .muUnlock :: rest => (.muUnlock, false) :: guardTrace false rest
  | g, i :: rest => (i, g) :: guardTrace g rest

/-- Every registry-map access happens while the mutex is held. -/
def mapOpsGuarded (l : List Instr) : Bool :=
  (guardTrace false l).all fun p => !p.1.isMapOp || p.2

/-- The mutex is never held during the blocking channel receive. -/
def waitNotGuarded (l : List Instr) : Bool :=
  (guardTrace false l).all fun p => !(p.1 == Instr.chanWait) || !p.2

/-- While the mutex is held, only registry-map operations (and the mutex
operations themselves) execute. -/
def guardOnlyForMapOps (l : List Instr) : Bool :=
  (guardTrace false l).all fun p =>
    !p.2 || p.1.isMapOp || p.1 == Instr.muLock || p.1 == Instr.muUnlock

/-- The resource names a scenario's channel currently holds in a state. -/
def heldBy (st : SyncState) (c : Nat) : List String :=
  (st.locks.filter fun p => p.2 == c).map Prod.fst

/-- The mutex discipline exactly as the spec states it: every registry access
under the guard, the guard held only for the brief map operations (in both
functions), and never across the blocking wait. -/
def mutexDisciplineClaim : Prop :=
  mapOpsGuarded acquireLockInstrs = true ∧
  mapOpsGuarded afterHookInstrs = true ∧
  waitNotGuarded acquireLockInstrs = true ∧
  guardOnlyForMapOps acquireLockInstrs = true ∧
  guardOnlyForMapOps afterHookInstrs = true

instance : Decidable mutexDisciplineClaim := by
  unfold mutexDisciplineClaim
  infer_instance

/-! Basic lemmas about the release loop and the registry lookup. -/

theorem releaseLoop_fst (c : Nat) (f : Option (String → Option String)) :
    ∀ l : List (String × Nat),
      (releaseLoop c f l).1 = l.filter fun p => !(p.2 == c)
  | [] => by cases f <;> simp [releaseLoop]
  | (key, lock) :: rest => by
    have ih := releaseLoop_fst c f rest
    cases f with
    | none =>
      by_cases h : lock = c <;>
        simp [releaseLoop, ih, List.filter_cons, h, beq_iff_eq]
    | some g =>
      cases hg : g key with
      | none =>
        by_cases h : lock = c <;>
          simp [releaseLoop, ih, hg, List.filter_cons, h, beq_iff_eq]
      | some e =>
        by_cases h : lock = c <;>
          simp [releaseLoop, ih, hg, List.filter_cons, h, beq_iff_eq]

theorem releaseLoop_calls (c : Nat) (g : String → Option String) :
    ∀ l : List (String × Nat),
      (releaseLoop c (some g) l).2.1 = l.map Prod.fst
  | [] => rfl
  | (key, lock) :: rest => by
    have ih := releaseLoop_calls c g rest
    cases hg : g key <;> simp [releaseLoop, ih, hg]

theorem releaseLoop_errs (c : Nat) (g : String → Option String) :
    ∀ l : List (String × Nat),
      (releaseLoop c (some g) l).2.2 = (l.map Prod.fst).filterMap g
  | [] => rfl
  | (key, lock) :: rest => by
    have ih := releaseLoop_errs c g rest
    cases hg : g key <;> simp [releaseLoop, ih, hg, List.filterMap_cons]

theorem lookupLock_eq_none {l : List (String × Nat)} {k : String} :
    lookupLock l k = none ↔ k ∉ l.map Prod.fst := by
  induction l with
  | nil => simp [lookupLock]
  | cons p rest ih =>
    obtain ⟨k', v⟩ := p
    by_cases h : k' = k <;> simp [lookupLock, h, ih, Ne.symm]

theorem lookupLock_mem {l : List (String × Nat)} {k : String} {v : Nat}
    (h : lookupLock l k = some v) : (k, v) ∈ l := by
  induction l with
  | nil => simp [lookupLock] at h
  | cons p rest ih =>
    obtain ⟨k', v'⟩ := p
    by_cases hk : k' = k
    · subst hk
      simp [lookupLock] at h
      simp [h]
    · simp [lookupLock, hk] at h
      exact List.mem_cons_of_mem _ (ih h)

/-! Claim theorems. -/

/-- C5: calling `acquireLock` with a context that never went through the
before-scenario hook (no scenario identity attached) returns
`(false, errMissingScenarioLock)` — the `MissingScenarioIdentity` error — and
leaves the lock registry (indeed the whole state) unchanged; the call does not
block. -/
theorem acquireLock_missing_identity (st : SyncState) (lockName : String) :
    acquireLock st none lockName = (.missingIdentity, st) ∧
    AcquireOutcome.missingIdentity.ret = some (false, some errMissingScenarioLock) :=
  ⟨rfl, rfl⟩

/-- C7: when the After hook runs with a context whose scenario-identity lookup
fails, it returns the `MissingScenarioIdentity` error and performs no cleanup:
the state (registry and closed channels) is unchanged and the release callback
is invoked for no resource. -/
theorem afterHook_missing_identity (st : SyncState)
    (onRelease : Option (String → Option String)) :
    afterHook st none onRelease = ⟨some errMissingScenarioLock, st, []⟩ :=
  rfl

/-- C3: with resource `R` unheld, two successive `acquireLock` calls by the same
scenario identity return `(true, nil)` then `(false, nil)`; the second call's
outcome is `reentrant` (not `blocked`, so it returns without entering the
blocking wait) and leaves the state unchanged. -/
theorem acquireLock_idempotent (st : SyncState) (id : Nat) (R : String)
    (h : lookupLock st.locks R = none) :
    (acquireLock st (some id) R).1 = .acquired ∧
    AcquireOutcome.acquired.ret = some (true, none) ∧
    acquireLock (acquireLock st (some id) R).2 (some id) R =
      (.reentrant, (acquireLock st (some id) R).2) ∧
    AcquireOutcome.reentrant.ret = some (false, none) := by
  refine ⟨?_, rfl, ?_, rfl⟩ <;> simp [acquireLock, h, lookupLock]

/-- Witness for C3 at a concrete input: the empty registry, identity 1,
resource name "svc-1". -/
theorem acquireLock_idempotent_witness :
    (acquireLock ⟨[], []⟩ (some 1) "svc-1").1 = .acquired ∧
    AcquireOutcome.acquired.ret = some (true, none) ∧
    acquireLock (acquireLock ⟨[], []⟩ (some 1) "svc-1").2 (some 1) "svc-1" =
      (.reentrant, (acquireLock ⟨[], []⟩ (some 1) "svc-1").2) ∧
    AcquireOutcome.reentrant.ret = some (false, none) :=
  acquireLock_idempotent ⟨[], []⟩ 1 "svc-1" rfl

/-- C8: for any identity and any resource name `R2` that is unheld,
`acquireLock` returns `(true, nil)` immediately (outcome `acquired`, never
`blocked`), whatever other resource names are held by whatever other identities
in the rest of the registry. -/
theorem acquireLock_unheld_never_blocks (st : SyncState) (id : Nat) (R2 : String)
    (h : lookupLock st.locks R2 = none) :
    acquireLock st (some id) R2 =
      (.acquired, ⟨(R2, id) :: st.locks, st.closed⟩) ∧
    AcquireOutcome.acquired.ret = some (true, none) := by
  refine ⟨?_, rfl⟩
  simp [acquireLock, h]

/-- Witness for C8 at a concrete input: resource "r1" is held by identity 2,
and identity 1 acquires the unheld "r2" without blocking. -/
theorem acquireLock_unheld_never_blocks_witness :
    acquireLock ⟨[("r1", 2)], []⟩ (some 1) "r2" =
      (.acquired, ⟨[("r2", 1), ("r1", 2)], []⟩) ∧
    AcquireOutcome.acquired.ret = some (true, none) :=
  acquireLock_unheld_never_blocks ⟨[("r1", 2)], []⟩ 1 "r2" (by decide)

/-- C6: for a scenario with a valid identity and a non-nil release callback,
the After hook invokes the callback for every key of the registry without
short-circuiting on earlier failures, and its returned error is `nil` when no
callback failed and otherwise the comma-joined concatenation of exactly the
failing callbacks' error texts (no text for a callback that succeeded). -/
theorem afterHook_error_aggregation (st : SyncState) (c : Nat)
    (f : String → Option String) :
    (afterHook st (some c) (some f)).calls = st.locks.map Prod.fst ∧
    (afterHook st (some c) (some f)).err =
      (if (st.locks.map Prod.fst).filterMap f = [] then none
       else some (.joined
         (String.intercalate ", " ((st.locks.map Prod.fst).filterMap f)))) := by
  have hc := releaseLoop_calls c f st.locks
  have he := releaseLoop_errs c f st.locks
  constructor <;> · simp only [afterHook, hc, he]; split <;> simp_all

/-! Lemmas about how the events evolve the shared state. -/

theorem acquireLock_closed (st : SyncState) (ctx : Option Nat) (n : String) :
    (acquireLock st ctx n).2.closed = st.closed := by
  cases ctx with
  | none => rfl
  | some c =>
    cases h : lookupLock st.locks n with
    | none => simp [acquireLock, h]
    | some lock => by_cases hc : lock = c <;> simp [acquireLock, h, hc]

theorem acquireLock_locks_eq (st : SyncState) (c : Nat) (n : String) :
    (acquireLock st (some c) n).2.locks =
      match lookupLock st.locks n with
      | none => (n, c) :: st.locks
      | some _ => st.locks := by
  cases h : lookupLock st.locks n with
  | none => simp [acquireLock, h]
  | some lock => by_cases hc : lock = c <;> simp [acquireLock, h, hc]

theorem afterHook_state (st : SyncState) (c : Nat)
    (f : Option (String → Option String)) :
    (afterHook st (some c) f).state =
      ⟨st.locks.filter fun p => !(p.2 == c), c :: st.closed⟩ := by
  have h := releaseLoop_fst c f st.locks
  simp only [afterHook, h]
  split <;> rfl

theorem lookupLock_filter_none {l : List (String × Nat)} {R : String}
    (q : String × Nat → Bool) (h : lookupLock l R = none) :
    lookupLock (l.filter q) R = none := by
  induction l with
  | nil => simp [lookupLock]
  | cons p rest ih =>
    obtain ⟨k, v⟩ := p
    by_cases hk : k = R
    · simp [lookupLock, hk] at h
    · simp only [lookupLock, hk, if_neg] at h
      rcases hq : q (k, v) with _ | _ <;>
        simp [List.filter_cons, hq, lookupLock, hk, ih h]

theorem lookupLock_filter_of_ne {l : List (String × Nat)} {R : String}
    {a c : Nat} (h : lookupLock l R = some a) (hne : a ≠ c) :
    lookupLock (l.filter fun p => !(p.2 == c)) R = some a := by
  induction l with
  | nil => simp [lookupLock] at h
  | cons p rest ih =>
    obtain ⟨k, v⟩ := p
    by_cases hk : k = R
    · subst hk
      simp [lookupLock] at h
      subst h
      simp [List.filter_cons, lookupLock, beq_iff_eq, hne]
    · simp only [lookupLock, hk, if_neg] at h
      rcases hq : (!(v == c)) with _ | _ <;>
        simp [List.filter_cons, hq, lookupLock, hk, ih h]

theorem lookupLock_filter_some {l : List (String × Nat)} {R : String} {b c : Nat}
    (nd : (l.map Prod.fst).Nodup)
    (h : lookupLock (l.filter fun p => !(p.2 == c)) R = some b) :
    lookupLock l R = some b := by
  induction l with
  | nil => simp [lookupLock] at h ⊢
  | cons p rest ih =>
    obtain ⟨k, v⟩ := p
    simp only [List.map_cons, List.nodup_cons] at nd
    rcases hq : (!(v == c)) with _ | _
    · simp only [List.filter_cons, hq, Bool.false_eq_true, if_false] at h
      by_cases hk : k = R
      · subst hk
        have hnone : lookupLock rest k = none := lookupLock_eq_none.2 nd.1
        rw [lookupLock_filter_none _ hnone] at h
        exact absurd h (by simp)
      · simp only [lookupLock, hk, if_neg, if_false]
        exact ih nd.2 h
    · simp only [List.filter_cons, hq, if_true] at h
      by_cases hk : k = R
      · subst hk
        simpa [lookupLock] using h
      · simp only [lookupLock, hk, if_neg, if_false] at h ⊢
        exact ih nd.2 h

theorem nodupKeys_applyEv (f : Option (String → Option String))
    (st : SyncState) (e : Ev) (nd : (st.locks.map Prod.fst).Nodup) :
    ((applyEv f st e).locks.map Prod.fst).Nodup := by
  cases e with
  | before sid => exact nd
  | acquire sid name =>
    simp only [applyEv]
    rw [acquireLock_locks_eq]
    cases h : lookupLock st.locks name with
    | none =>
      simp only [List.map_cons, List.nodup_cons]
      exact ⟨lookupLock_eq_none.1 h, nd⟩
    | some lock => exact nd
  | afterSc sid =>
    simp only [applyEv]
    rw [afterHook_state]
    exact nd.sublist ((List.filter_sublist st.locks).map Prod.fst)

theorem runTrace_append (f : Option (String → Option String)) (st : SyncState)
    (l₁ l₂ : List Ev) :
    runTrace f st (l₁ ++ l₂) = runTrace f (runTrace f st l₁) l₂ := by
  induction l₁ generalizing st with
  | nil => rfl
  | cons e l ih => simp [runTrace, ih]

theorem nodupKeys_runTrace (f : Option (String → Option String))
    (st : SyncState) (evs : List Ev) (nd : (st.locks.map Prod.fst).Nodup) :
    ((runTrace f st evs).locks.map Prod.fst).Nodup := by
  induction evs generalizing st with
  | nil => exact nd
  | cons e evs ih => exact ih _ (nodupKeys_applyEv f st e nd)

theorem nodupKeys_reach (f : Option (String → Option String)) (evs : List Ev) :
    ((reach f evs).locks.map Prod.fst).Nodup :=
  nodupKeys_runTrace f ⟨[], []⟩ evs (by simp)

theorem eq_snd_of_nodupKeys {l : List (String × Nat)} {p q : String × Nat}
    (nd : (l.map Prod.fst).Nodup) (hp : p ∈ l) (hq : q ∈ l) (hk : p.1 = q.1) :
    p.2 = q.2 := by
  induction l with
  | nil => simp at hp
  | cons x rest ih =>
    simp only [List.map_cons, List.nodup_cons] at nd
    rcases List.mem_cons.1 hp with hp1 | hp1 <;>
      rcases List.mem_cons.1 hq with hq1 | hq1
    · rw [hp1, hq1]
    · exact absurd (hk ▸ List.mem_map_of_mem Prod.fst hq1) (hp1 ▸ nd.1)
    · exact absurd (hk ▸ List.mem_map_of_mem Prod.fst hp1) (by rw [hq1]; exact nd.1)
    · exact ih nd.2 hp1 hq1

/-- C1, evaluated at the failing input: identities 1 and 2 hold "a" and "b"
respectively, so scenario 1 holds exactly one resource (N = 1), yet scenario 1's
After hook invokes the release callback twice — on "a" and also on "b", a
resource name held by a different scenario — both when the callback always
succeeds and when it always fails. -/
theorem afterHook_invokes_callback_on_foreign_keys :
    heldBy ⟨[("a", 1), ("b", 2)], []⟩ 1 = ["a"] ∧
    (afterHook ⟨[("a", 1), ("b", 2)], []⟩ (some 1) (some fun _ => none)).calls
      = ["a", "b"] ∧
    (afterHook ⟨[("a", 1), ("b", 2)], []⟩ (some 1)
      (some fun k => some (k ++ " failed"))).calls = ["a", "b"] :=
  ⟨rfl, rfl, rfl⟩

theorem afterHook_not_holder (st : SyncState) (c : Nat)
    (f : Option (String → Option String)) :
    c ∉ (afterHook st (some c) f).state.locks.map Prod.snd := by
  intro hmem
  rw [afterHook_state] at hmem
  simp only [List.mem_map, List.mem_filter] at hmem
  obtain ⟨p, ⟨_, hq⟩, hc⟩ := hmem
  rw [hc] at hq
  simp at hq

theorem closed_count_runTrace (f : Option (String → Option String)) (c : Nat)
    (evs : List Ev) :
    ∀ st : SyncState,
      (runTrace f st evs).closed.count c
        = st.closed.count c + evs.count (Ev.afterSc c) := by
  induction evs with
  | nil => intro st; simp [runTrace]
  | cons e evs ih =>
    intro st
    rw [runTrace, ih]
    cases e with
    | before sid => simp [applyEv, List.count_cons]
    | acquire sid n => simp [applyEv, acquireLock_closed, List.count_cons]
    | afterSc sid =>
      simp only [applyEv]
      rw [afterHook_state]
      simp only [List.count_cons, beq_iff_eq]
      by_cases h : sid = c
      · simp [h]
        omega
      · simp [h]

theorem not_holder_runTrace (f : Option (String → Option String)) (c : Nat)
    (r : List Ev) :
    ∀ st : SyncState, c ∉ st.locks.map Prod.snd →
      (∀ e ∈ r, e.isAcqOf c = false) →
      c ∉ (runTrace f st r).locks.map Prod.snd := by
  induction r with
  | nil => intro st h _; exact h
  | cons e r ih =>
    intro st h hr
    rw [runTrace]
    refine ih _ ?_ fun e' he' => hr e' (List.mem_cons_of_mem _ he')
    cases e with
    | before sid => exact h
    | acquire sid n =>
      have hsid : sid ≠ c := by
        have hh := hr _ (List.mem_cons_self _ _)
        simpa [Ev.isAcqOf, decide_eq_false_iff_not] using hh
      intro hmem
      simp only [applyEv] at hmem
      rw [acquireLock_locks_eq] at hmem
      cases hl : lookupLock st.locks n with
      | none =>
        rw [hl] at hmem
        simp only [List.map_cons, List.mem_cons] at hmem
        rcases hmem with hmem | hmem
        · exact hsid hmem.symm
        · exact h hmem
      | some lock =>
        rw [hl] at hmem
        exact h hmem
    | afterSc sid =>
      intro hmem
      simp only [applyEv] at hmem
      rw [afterHook_state] at hmem
      simp only [List.mem_map, List.mem_filter] at hmem
      obtain ⟨p, ⟨hp, _⟩, hc⟩ := hmem
      exact h (hc ▸ List.mem_map_of_mem Prod.snd hp)

/-- C2: at every reachable state of the lock registry, at most one scenario
identity is recorded as the holder of any resource name (any two registry
entries for the same name carry the same channel); `acquireLock` installs a
holder only when `R` has no entry (when an entry exists the registry is left
unchanged); no single event moves `R` directly from one holder to a different
holder; and the only event that removes an existing entry for `R` is the After
hook of that entry's own holder. -/
theorem mutual_exclusion_state_machine (f : Option (String → Option String))
    (evs : List Ev) (e : Ev) (R : String) :
    (∀ p q : String × Nat, p ∈ (reach f evs).locks → q ∈ (reach f evs).locks →
      p.1 = q.1 → p.2 = q.2) ∧
    (∀ id a, lookupLock (reach f evs).locks R = some a →
      (acquireLock (reach f evs) (some id) R).2.locks = (reach f evs).locks) ∧
    (∀ id, lookupLock (reach f evs).locks R = none →
      (acquireLock (reach f evs) (some id) R).2.locks
        = (R, id) :: (reach f evs).locks) ∧
    (∀ a b, lookupLock (reach f evs).locks R = some a →
      lookupLock (applyEv f (reach f evs) e).locks R = some b → a = b) ∧
    (∀ a, lookupLock (reach f evs).locks R = some a →
      lookupLock (applyEv f (reach f evs) e).locks R = none →
      e = Ev.afterSc a) := by
  have nd := nodupKeys_reach f evs
  refine ⟨fun p q hp hq hk => eq_snd_of_nodupKeys nd hp hq hk, ?_, ?_, ?_, ?_⟩
  · intro id a h
    rw [acquireLock_locks_eq, h]
  · intro id h
    rw [acquireLock_locks_eq, h]
  · intro a b ha hb
    cases e with
    | before sid =>
      simp only [applyEv] at hb
      rw [ha] at hb
      exact Option.some.inj hb
    | acquire sid name =>
      simp only [applyEv] at hb
      rw [acquireLock_locks_eq] at hb
      cases hn : lookupLock (reach f evs).locks name with
      | none =>
        rw [hn] at hb
        have hne : name ≠ R := fun hEq => by rw [hEq, ha] at hn; exact Option.noConfusion hn
        simp only [lookupLock, hne, if_neg, if_false] at hb
        rw [ha] at hb
        exact Option.some.inj hb
      | some lock =>
        rw [hn] at hb
        rw [ha] at hb
        exact Option.some.inj hb
    | afterSc sid =>
      simp only [applyEv] at hb
      rw [afterHook_state] at hb
      have hb' := lookupLock_filter_some nd hb
      rw [ha] at hb'
      exact Option.some.inj hb'
  · intro a ha hnone
    cases e with
    | before sid =>
      simp only [applyEv] at hnone
      rw [ha] at hnone
      exact Option.noConfusion hnone
    | acquire sid name =>
      exfalso
      simp only [applyEv] at hnone
      rw [acquireLock_locks_eq] at hnone
      cases hn : lookupLock (reach f evs).locks name with
      | none =>
        rw [hn] at hnone
        by_cases hEq : name = R
        · simp only [lookupLock, hEq, if_pos] at hnone
          exact Option.noConfusion hnone
        · simp only [lookupLock, hEq, if_neg, if_false] at hnone
          rw [ha] at hnone
          exact Option.noConfusion hnone
      | some lock =>
        rw [hn] at hnone
        rw [ha] at hnone
        exact Option.noConfusion hnone
    | afterSc sid =>
      simp only [applyEv] at hnone
      rw [afterHook_state] at hnone
      by_cases hEq : a = sid
      · rw [hEq]
      · exfalso
        rw [lookupLock_filter_of_ne ha hEq] at hnone
        exact Option.noConfusion hnone

/-- Witness for C2 at a concrete input: after identity 1 acquires "r", a
critical-section pass by identity 2 on "r" leaves identity 1 the holder. -/
theorem mutual_exclusion_state_machine_witness :
    lookupLock (reach none [Ev.acquire 1 "r"]).locks "r" = some 1 ∧
    lookupLock (applyEv none (reach none [Ev.acquire 1 "r"])
      (Ev.acquire 2 "r")).locks "r" = some 1 ∧
    (1 : Nat) = 1 :=
  ⟨rfl, rfl,
    (mutual_exclusion_state_machine none [Ev.acquire 1 "r"]
      (Ev.acquire 2 "r") "r").2.2.2.1 1 1 rfl rfl⟩

/-- C4: with resource `R` held by channel `a` and contender `b ≠ a`, scenario
B's `acquireLock` pass puts it in the `waiting a` suspension without touching
the state; no step is enabled for it while `a` is not closed; the only event
that closes `a` is the After hook of `a`'s own scenario; once `a` is closed the
contender retries acquisition from scratch (back to `start`, with no queuing —
any contender may win the retry); and whenever the call finally returns, the
caller is the recorded holder of `R`. -/
theorem cross_scenario_serialization (f : Option (String → Option String))
    (st : SyncState) (a b : Nat) (R : String)
    (hold : lookupLock st.locks R = some a) (hne : a ≠ b) :
    acqStep st (some b) R .start = some (.waiting a, st) ∧
    (a ∉ st.closed → acqStep st (some b) R (.waiting a) = none) ∧
    (∀ st' : SyncState, ∀ e : Ev, a ∉ st'.closed →
      a ∈ (applyEv f st' e).closed → e = Ev.afterSc a) ∧
    (a ∈ st.closed → acqStep st (some b) R (.waiting a) = some (.start, st)) ∧
    (∀ st' st2 fr, acqStep st' (some b) R .start = some (.done fr, st2) →
      lookupLock st2.locks R = some b) := by
  refine ⟨?_, ?_, ?_, ?_, ?_⟩
  · have hba : ¬ (a = b) := hne
    simp [acqStep, acquireLock, hold, hba]
  · intro h
    simp [acqStep, h]
  · intro st' e hout hin
    cases e with
    | before sid => exact absurd hin hout
    | acquire sid n =>
      simp only [applyEv] at hin
      rw [acquireLock_closed] at hin
      exact absurd hin hout
    | afterSc sid =>
      simp only [applyEv] at hin
      rw [afterHook_state] at hin
      rcases List.mem_cons.1 hin with h1 | h1
      · rw [h1]
      · exact absurd h1 hout
  · intro h
    simp [acqStep, h]
  · intro st' st2 fr hstep
    cases hl : lookupLock st'.locks R with
    | none =>
      simp only [acqStep, acquireLock, hl] at hstep
      obtain ⟨_, h2⟩ := Prod.mk.injEq .. ▸ Option.some.inj hstep
      rw [← h2]
      simp [lookupLock]
    | some lock =>
      by_cases hb : lock = b
      · simp only [acqStep, acquireLock, hl, hb, if_pos] at hstep
        obtain ⟨_, h2⟩ := Prod.mk.injEq .. ▸ Option.some.inj hstep
        rw [← h2, hl, hb]
      · simp only [acqStep, acquireLock, hl, hb, if_neg, if_false] at hstep
        exact absurd (congrArg (fun o => o.map Prod.fst) hstep) (by simp)

/-- Witness for C4 at a concrete input: "r" is held by channel 1, contender 2
suspends on channel 1 and cannot step while 1 is unclosed. -/
theorem cross_scenario_serialization_witness :
    acqStep ⟨[("r", 1)], []⟩ (some 2) "r" .start
      = some (.waiting 1, ⟨[("r", 1)], []⟩) ∧
    acqStep ⟨[("r", 1)], []⟩ (some 2) "r" (.waiting 1) = none :=
  ⟨(cross_scenario_serialization none ⟨[("r", 1)], []⟩ 1 2 "r" rfl
      (by decide)).1,
   (cross_scenario_serialization none ⟨[("r", 1)], []⟩ 1 2 "r" rfl
      (by decide)).2.1 (by decide)⟩

/-- C9 as stated fails: the After hook holds the guard across the
release-callback invocation (and the channel close), which are not registry-map
operations, so the guard is not held only for the brief map operations; the
concrete violation is the callback instruction of the After hook executing with
the guard held. -/
theorem mutexDiscipline_claim_false :
    mutexDisciplineClaim = False ∧
    (Instr.callback, true) ∈ guardTrace false afterHookInstrs :=
  ⟨eq_false (by decide), by decide⟩

/-- C9 amended: every registry-map access in both functions happens under the
guard; in `acquireLock` the guard is held only for the brief map operations and
never during the blocking receive (the wait comes after the unlock, and a woken
contender retries the body from scratch, re-taking the guard); the After hook,
however, holds the guard for its entire body — including the release-callback
invocations and the closing of the release signal. -/
theorem mutexDiscipline_amended :
    mapOpsGuarded acquireLockInstrs = true ∧
    mapOpsGuarded afterHookInstrs = true ∧
    waitNotGuarded acquireLockInstrs = true ∧
    guardOnlyForMapOps acquireLockInstrs = true ∧
    guardOnlyForMapOps afterHookInstrs = false ∧
    (∀ (st : SyncState) (ctx : Option Nat) (R : String) (l : Nat),
      acqStep st ctx R (.waiting l)
        = if l ∈ st.closed then some (.start, st) else none) :=
  ⟨by decide, by decide, by decide, by decide, by decide,
   fun _ _ _ _ => rfl⟩

/-- C10: the After hook with a valid identity closes exactly the scenario's own
channel, once, on every run — including with an empty registry and with failing
callbacks (the statement quantifies over all states and callbacks);
`acquireLock` closes nothing, and the After hook without an identity changes
nothing; after the hook the closed channel no longer holds any resource; over
any trace from the initial state the number of times channel `c` is closed
equals the number of After-hook events of scenario `c`; once closed, the
channel never re-enters the registry provided its scenario performs no further
acquisition; and closing wakes every contender waiting on the channel (its
receive becomes enabled and it retries). -/
theorem release_signal_closed_once (f : Option (String → Option String))
    (st : SyncState) (c : Nat) :
    (afterHook st (some c) f).state.closed = c :: st.closed ∧
    (∀ ctx n, (acquireLock st ctx n).2.closed = st.closed) ∧
    (afterHook st none f).state = st ∧
    c ∉ (afterHook st (some c) f).state.locks.map Prod.snd ∧
    (∀ evs : List Ev, (reach f evs).closed.count c
      = evs.count (Ev.afterSc c)) ∧
    (∀ l r : List Ev, (∀ e ∈ r, e.isAcqOf c = false) →
      c ∉ (reach f (l ++ Ev.afterSc c :: r)).locks.map Prod.snd) ∧
    (∀ ctx R, c ∈ st.closed →
      acqStep st ctx R (.waiting c) = some (.start, st)) := by
  refine ⟨?_, ?_, rfl, afterHook_not_holder st c f, ?_, ?_, ?_⟩
  · rw [afterHook_state]
  · intro ctx n
    exact acquireLock_closed st ctx n
  · intro evs
    rw [reach, closed_count_runTrace]
    simp
  · intro l r hr
    rw [reach, runTrace_append, runTrace]
    exact not_holder_runTrace f c r _ (afterHook_not_holder _ c f) hr
  · intro ctx R h
    simp [acqStep, h]

/-- Witness for C10 at a concrete input: scenario 1 acquires "r" and ends while
its callback fails; afterwards scenario 2 runs, and channel 1 never reappears
as a holder in the registry. -/
theorem release_signal_closed_once_witness :
    (1 : Nat) ∉ (reach (some fun _ => some "boom")
      ([Ev.before 1, Ev.acquire 1 "r"]
        ++ Ev.afterSc 1 :: [Ev.before 2, Ev.acquire 2 "s"])).locks.map
        Prod.snd :=
  (release_signal_closed_once (some fun _ => some "boom")
      ⟨[], []⟩ 1).2.2.2.2.2.1
    [Ev.before 1, Ev.acquire 1 "r"] [Ev.before 2, Ev.acquire 2 "s"]
    (by decide)

end Httpsteps
